import Mathlib

/-!
Shallow embedding of the "second brain" core (gemini service module:
cosineSimilarity, analyzeContent, parseSearchIntent, queryBrain) and the
data model from types.ts.

Modelling conventions:
* JavaScript numbers are idealised: timestamps as integers, embedding
  coordinates and similarity scores as real numbers.
* Each external model call (annotation, intent parsing, embedding,
  answer synthesis) is an independent asynchronous operation; its outcome
  is passed in explicitly as an argument of type Option _, where none
  stands for any failure (transport error, empty response, malformed or
  non-conforming JSON) and some r for a successful structured reply r.
* JavaScript truthiness tests on nullable fields are translated exactly:
  null and the number 0 are falsy, the empty string is falsy.
* Array.prototype.sort with a comparator is, per the ECMAScript
  specification, a stable sort; it is modelled by List.insertionSort with
  the relation "comparator result is nonpositive", which is the canonical
  stable sort for that comparator.
-/

namespace SecondBrain

/-- Display language selector from types.ts. -/
inductive Language where
  | en
  | zh
deriving DecidableEq

/-- ContentType enum from types.ts. -/
inductive ContentType where
  | TEXT
  | IMAGE
  | LINK
deriving DecidableEq

/-- Memory record from types.ts: a saved note.  createdAt is an epoch
timestamp (a JS number, modelled as an integer); embedding is the optional
stored vector. -/
structure Memory where
  id : String
  originalContent : String
  type : ContentType
  imageData : Option String
  summary : String
  tags : List String
  category : String
  createdAt : Int
  embedding : Option (List ℝ)

/-- ProcessingResult record from types.ts (what analyzeContent returns). -/
structure ProcessingResult where
  summary : String
  tags : List String
  category : String
  embedding : Option (List ℝ)

/-- ParsedIntent record from the gemini service module: the structured
search filters produced by parseSearchIntent. -/
structure ParsedIntent where
  keywords : String
  category : Option String
  tags : List String
  startDate : Option Int
  endDate : Option Int

/-- Model of String.prototype.toLowerCase: lowercase every character
(basic latin), defined by structural recursion over the character list so
that concrete instances evaluate. -/
def lowerStr (s : String) : String := ⟨s.data.map Char.toLower⟩

/-- The first guard of the hard filter in queryBrain:
"if (parsed.category && m.category.toLowerCase() !== parsed.category.toLowerCase()) return false".
A null category is falsy, and so is the empty string. -/
def categoryBlocks (parsed : ParsedIntent) (m : Memory) : Bool :=
  match parsed.category with
  | none => false
  | some c => !(c == "") && !(lowerStr m.category == lowerStr c)

/-- The second guard of the hard filter in queryBrain:
"if (parsed.tags.length > 0) { const hasTag = parsed.tags.some(t => m.tags.includes(t.toLowerCase())); if (!hasTag) return false }".
Note that only the requested tag t is lowercased; the note tags are
matched verbatim by Array.prototype.includes. -/
def tagBlocks (parsed : ParsedIntent) (m : Memory) : Bool :=
  decide (0 < parsed.tags.length) &&
    !(parsed.tags.any fun t => m.tags.contains (lowerStr t))

/-- The third guard of the hard filter in queryBrain:
"if (parsed.startDate && m.createdAt < parsed.startDate) return false".
Both null and the number 0 are falsy. -/
def startDateBlocks (parsed : ParsedIntent) (m : Memory) : Bool :=
  match parsed.startDate with
  | none => false
  | some d => !(d == 0) && decide (m.createdAt < d)

/-- The fourth guard of the hard filter in queryBrain:
"if (parsed.endDate && m.createdAt > parsed.endDate) return false". -/
def endDateBlocks (parsed : ParsedIntent) (m : Memory) : Bool :=
  match parsed.endDate with
  | none => false
  | some d => !(d == 0) && decide (d < m.createdAt)

/-- The filter predicate literal passed to memories.filter in queryBrain:
a memory survives when none of the four sequential early-return guards
fires. -/
def memoryPasses (parsed : ParsedIntent) (m : Memory) : Bool :=
  !categoryBlocks parsed m && !tagBlocks parsed m &&
    !startDateBlocks parsed m && !endDateBlocks parsed m

/-- Step 2 of queryBrain: "let filteredMemories = memories.filter(m => ...)". -/
def filterMemories (parsed : ParsedIntent) (memories : List Memory) : List Memory :=
  memories.filter (memoryPasses parsed)

/-- Sum of pairwise products, the dotProduct accumulator of the loop in
cosineSimilarity (the loop runs over indices of vecA; in the branch where
it is reached both vectors have the same length, so zipWith is exact). -/
def dotProduct (vecA vecB : List ℝ) : ℝ :=
  (List.zipWith (fun x y => x * y) vecA vecB).sum

/-- Sum of squares of one vector, the normA / normB accumulator of the
loop in cosineSimilarity. -/
def normSq (vec : List ℝ) : ℝ :=
  (vec.map fun x => x * x).sum

/-- cosineSimilarity from the gemini service module.  The source takes
two number arrays that may be null or undefined; a missing argument is
modelled as none.  Guards in source order: missing input or length
mismatch returns 0; a zero magnitude on either side returns 0; otherwise
the dot product divided by the product of the Euclidean norms. -/
noncomputable def cosineSimilarity (vecA vecB : Option (List ℝ)) : ℝ :=
  match vecA, vecB with
  | some a, some b =>
    if a.length ≠ b.length then 0
    else if normSq a = 0 ∨ normSq b = 0 then 0
    else dotProduct a b / (Real.sqrt (normSq a) * Real.sqrt (normSq b))
  | _, _ => 0

/-- The wrapper objects built in queryBrain: "{ memory: m, score: ... }". -/
structure ScoredMemory where
  memory : Memory
  score : ℝ

/-- The ordering realised by the comparator "(a, b) => b.score - a.score"
passed to the stable Array.prototype.sort: a precedes b when the
comparator is nonpositive, that is when b.score ≤ a.score. -/
def scoreGe (a b : ScoredMemory) : Prop := b.score ≤ a.score

noncomputable instance : DecidableRel scoreGe := fun a b => Real.decidableLE _ _

instance : IsTotal ScoredMemory scoreGe := ⟨fun a b => le_total b.score a.score⟩

instance : IsTrans ScoredMemory scoreGe := ⟨fun _ _ _ hab hbc => le_trans hbc hab⟩

/-- The ordering realised by the comparator "(a, b) => b.createdAt - a.createdAt". -/
def createdGe (a b : Memory) : Prop := b.createdAt ≤ a.createdAt

instance : DecidableRel createdGe := fun a b => Int.decLe _ _

instance : IsTotal Memory createdGe := ⟨fun a b => le_total b.createdAt a.createdAt⟩

instance : IsTrans Memory createdGe := ⟨fun _ _ _ hab hbc => le_trans hbc hab⟩

/-- The scoring map literal in queryBrain:
"if (!m.embedding) return { memory: m, score: -1 }; return { memory: m, score: cosineSimilarity(queryEmbedding, m.embedding) }". -/
noncomputable def scoreOf (queryEmbedding : List ℝ) (m : Memory) : ScoredMemory :=
  match m.embedding with
  | none => { memory := m, score := -1 }
  | some e => { memory := m, score := cosineSimilarity (some queryEmbedding) (some e) }

/-- Step 3 of queryBrain (ranking).  queryEmbedding is the result of the
getEmbedding call on parsed.keywords (none on any failure).  The branch
condition is "parsed.keywords && parsed.keywords.length > 1" with JS
truthiness on the string. -/
noncomputable def rankMemories (parsed : ParsedIntent) (queryEmbedding : Option (List ℝ))
    (filteredMemories : List Memory) : List Memory :=
  if !(parsed.keywords == "") && decide (1 < parsed.keywords.length) then
    match queryEmbedding with
    | some q =>
      if 0 < filteredMemories.length then
        let memoriesWithScore := filteredMemories.map (scoreOf q)
        ((memoriesWithScore.insertionSort scoreGe).take 10).map ScoredMemory.memory
      else
        filteredMemories.take 10
    | none => filteredMemories.take 10
  else
    (filteredMemories.insertionSort createdGe).take 10

/-- Canned no-matches answer of queryBrain step 4. -/
def noMatchesAnswer : Language → String
  | Language.zh => "抱歉，根据您的过滤条件，我没有找到任何相关记忆。"
  | Language.en => "Sorry, I couldn\x27t find any memories matching those filters."

/-- Canned apology of the final catch block of queryBrain. -/
def apologyAnswer : Language → String
  | Language.zh => "抱歉，生成回答时出错了。"
  | Language.en => "Sorry, I had trouble processing your request."

/-- The record queryBrain resolves with; usedFilters is absent (none) in
the final catch branch. -/
structure BrainResponse where
  answer : String
  relatedIds : List String
  usedFilters : Option ParsedIntent

/-- parseSearchIntent: the model call either yields a conforming
ParsedIntent (modelled by modelReply = some parsed) or fails in any way
(modelReply = none), in which case the catch block returns the fallback
"{ keywords: query, category: null, tags: [], startDate: null, endDate: null }". -/
def parseSearchIntent (query : String) (modelReply : Option ParsedIntent) : ParsedIntent :=
  match modelReply with
  | some parsed => parsed
  | none =>
    { keywords := query, category := none, tags := [], startDate := none, endDate := none }

/-- queryBrain from the gemini service module.  The three external calls
are passed in as explicit outcomes: parseReply for the intent-parsing
model call, embedReply for the getEmbedding call on the keywords, and
synthReply for the answer-synthesis model call (some (answer, relatedIds)
on success, none on any failure). -/
noncomputable def queryBrain (userQuery : String) (memories : List Memory)
    (language : Language) (parseReply : Option ParsedIntent)
    (embedReply : Option (List ℝ)) (synthReply : Option (String × List String)) :
    BrainResponse :=
  let parsed := parseSearchIntent userQuery parseReply
  let filteredMemories := filterMemories parsed memories
  let relevantMemories := rankMemories parsed embedReply filteredMemories
  if relevantMemories.length = 0 then
    { answer := noMatchesAnswer language, relatedIds := [], usedFilters := some parsed }
  else
    match synthReply with
    | some reply =>
      { answer := reply.1, relatedIds := reply.2, usedFilters := some parsed }
    | none =>
      { answer := apologyAnswer language, relatedIds := [], usedFilters := none }

/-- The structured JSON reply of the annotation model call in
analyzeContent (schema: summary, tags, category). -/
structure ModelNote where
  summary : String
  tags : List String
  category : String

/-- analyzeContent from the gemini service module.  modelReply is the
outcome of the annotation model call (none for transport error, empty
response, or malformed reply), embedReply the outcome of the subsequent
getEmbedding call on the derived text.  On any annotation failure the
catch block returns
"{ summary: text.slice(0, 50) + \x22...\x22, tags: [\x22uncategorized\x22], category: \x22General\x22 }"
with no embedding field. -/
def analyzeContent (text : String) (base64Image : Option String)
    (existingCategories : List String) (language : Language)
    (modelReply : Option ModelNote) (embedReply : Option (List ℝ)) : ProcessingResult :=
  match modelReply with
  | some result =>
    { summary := result.summary, tags := result.tags, category := result.category,
      embedding := embedReply }
  | none =>
    { summary := text.take 50 ++ "...", tags := ["uncategorized"],
      category := "General", embedding := none }

/-- A small store of JavaScript arrays of Memory, used to make the
aliasing behaviour of queryBrain explicit: refs below next are live
arrays, and in-place mutation (Array.prototype.sort) is a store write. -/
structure Heap where
  arrays : Nat → List Memory
  next : Nat

/-- Read the contents of the array at ref r. -/
def readRef (h : Heap) (r : Nat) : List Memory := h.arrays r

/-- Overwrite the array at ref r in place (what Array.prototype.sort does
to its receiver). -/
def writeRef (h : Heap) (r : Nat) (l : List Memory) : Heap :=
  { arrays := fun i => if i = r then l else h.arrays i, next := h.next }

/-- Allocate a fresh array (what Array.prototype.filter, map and slice
return), yielding the new heap and the fresh ref. -/
def allocRef (h : Heap) (l : List Memory) : Heap × Nat :=
  ({ arrays := fun i => if i = h.next then l else h.arrays i, next := h.next + 1 },
    h.next)

/-- Heap-level rendering of queryBrain steps 2 and 3, tracking which
array object each operation touches.  memories.filter allocates a fresh
array bound to filteredMemories; in the keyword branch the sorted array
is the freshly mapped array of ScoredMemory wrapper objects (it holds
wrappers, not the Memory arrays, so that sort is heap-neutral here); in
the recency branch "filteredMemories.sort(...)" mutates the
filteredMemories array in place and "slice(0, 10)" copies from it.
Returns the final heap together with relevantMemories. -/
noncomputable def queryBrainHeap (parsed : ParsedIntent) (queryEmbedding : Option (List ℝ))
    (h0 : Heap) (memoriesRef : Nat) : Heap × List Memory :=
  let allocated := allocRef h0 (filterMemories parsed (readRef h0 memoriesRef))
  let h1 := allocated.1
  let filteredRef := allocated.2
  if !(parsed.keywords == "") && decide (1 < parsed.keywords.length) then
    match queryEmbedding with
    | some q =>
      if 0 < (readRef h1 filteredRef).length then
        let memoriesWithScore := (readRef h1 filteredRef).map (scoreOf q)
        (h1, ((memoriesWithScore.insertionSort scoreGe).take 10).map ScoredMemory.memory)
      else
        (h1, (readRef h1 filteredRef).take 10)
    | none => (h1, (readRef h1 filteredRef).take 10)
  else
    let h2 := writeRef h1 filteredRef ((readRef h1 filteredRef).insertionSort createdGe)
    (h2, (readRef h2 filteredRef).take 10)

/-- Spec-side predicate, for comparison with the implemented hard filter.
It transcribes the claimed filter conditions word for word: category null
or equal case-insensitively; tag list empty or at least one requested tag
equal to a note tag case-insensitively; startDate null or
createdAt >= startDate; endDate null or createdAt <= endDate. -/
def claimSurvives (parsed : ParsedIntent) (m : Memory) : Bool :=
  (match parsed.category with
   | none => true
   | some c => lowerStr m.category == lowerStr c) &&
  (parsed.tags.isEmpty ||
    parsed.tags.any fun t => m.tags.any fun mt => lowerStr mt == lowerStr t) &&
  (match parsed.startDate with
   | none => true
   | some d => decide (d ≤ m.createdAt)) &&
  (match parsed.endDate with
   | none => true
   | some d => decide (m.createdAt ≤ d))

/-- Spec-side predicate, for comparison with the implemented ranking: the
claimed property that every note lacking an embedding is placed after
every note possessing one — the result splits into a block of scored
notes followed by a block of unscored notes. -/
def unscoredLast (result : List Memory) : Bool :=
  (result.dropWhile fun m => m.embedding.isSome).all fun m => m.embedding.isNone

/-- Logical form of the amended hard-filter characterization: any
non-null, non-empty requested category must match case-insensitively;
when tags are requested, some requested tag, lowercased, must literally
occur among the note tags; a non-null, non-zero startDate is an
inclusive lower bound and a non-null, non-zero endDate an inclusive
upper bound on createdAt. -/
def amendedSurvives (parsed : ParsedIntent) (m : Memory) : Prop :=
  (∀ c, parsed.category = some c → c ≠ "" → lowerStr m.category = lowerStr c) ∧
  (parsed.tags ≠ [] → ∃ t ∈ parsed.tags, lowerStr t ∈ m.tags) ∧
  (∀ d, parsed.startDate = some d → d ≠ 0 → d ≤ m.createdAt) ∧
  (∀ d, parsed.endDate = some d → d ≠ 0 → m.createdAt ≤ d)

/-- A fixture note whose only tag carries an uppercase letter. -/
def noteReact : Memory :=
  { id := "n1", originalContent := "react tips", type := ContentType.TEXT,
    imageData := none, summary := "notes about React", tags := ["React"],
    category := "Coding", createdAt := 5, embedding := none }

/-- A fixture intent requesting exactly that tag, spelled identically. -/
def intentReact : ParsedIntent :=
  { keywords := "", category := none, tags := ["React"], startDate := none,
    endDate := none }

lemma categoryBlocks_eq_false_iff (parsed : ParsedIntent) (m : Memory) :
    categoryBlocks parsed m = false ↔
      ∀ c, parsed.category = some c → c ≠ "" → lowerStr m.category = lowerStr c := by
  cases hc : parsed.category with
  | none => simp [categoryBlocks, hc]
  | some c =>
    simp only [categoryBlocks, hc, Bool.and_eq_false_iff, Bool.not_eq_false',
      Option.some.injEq, beq_iff_eq]
    constructor
    · rintro (h | h) c2 hc2 hne
      · exact absurd (hc2 ▸ h) hne
      · exact hc2 ▸ h
    · intro h
      by_cases he : c = ""
      · exact Or.inl he
      · exact Or.inr (h c rfl he)

lemma contains_true_iff {l : List String} {a : String} :
    l.contains a = true ↔ a ∈ l :=
  List.elem_iff

lemma tagBlocks_eq_false_iff (parsed : ParsedIntent) (m : Memory) :
    tagBlocks parsed m = false ↔
      (parsed.tags ≠ [] → ∃ t ∈ parsed.tags, lowerStr t ∈ m.tags) := by
  simp only [tagBlocks, Bool.and_eq_false_iff, decide_eq_false_iff_not, not_lt,
    Nat.le_zero, List.length_eq_zero, Bool.not_eq_false', List.any_eq_true,
    contains_true_iff]
  constructor
  · rintro (h | h) hne
    · exact absurd h hne
    · exact h
  · intro h
    by_cases he : parsed.tags = []
    · exact Or.inl he
    · exact Or.inr (h he)

lemma startDateBlocks_eq_false_iff (parsed : ParsedIntent) (m : Memory) :
    startDateBlocks parsed m = false ↔
      ∀ d, parsed.startDate = some d → d ≠ 0 → d ≤ m.createdAt := by
  cases hd : parsed.startDate with
  | none => simp [startDateBlocks, hd]
  | some d =>
    simp only [startDateBlocks, hd, Bool.and_eq_false_iff, Bool.not_eq_false',
      beq_iff_eq, decide_eq_false_iff_not, not_lt, Option.some.injEq]
    constructor
    · rintro (h | h) d2 hd2 hne
      · exact absurd (hd2 ▸ h) hne
      · exact hd2 ▸ h
    · intro h
      by_cases he : d = 0
      · exact Or.inl he
      · exact Or.inr (h d rfl he)

lemma endDateBlocks_eq_false_iff (parsed : ParsedIntent) (m : Memory) :
    endDateBlocks parsed m = false ↔
      ∀ d, parsed.endDate = some d → d ≠ 0 → m.createdAt ≤ d := by
  cases hd : parsed.endDate with
  | none => simp [endDateBlocks, hd]
  | some d =>
    simp only [endDateBlocks, hd, Bool.and_eq_false_iff, Bool.not_eq_false',
      beq_iff_eq, decide_eq_false_iff_not, not_lt, Option.some.injEq]
    constructor
    · rintro (h | h) d2 hd2 hne
      · exact absurd (hd2 ▸ h) hne
      · exact hd2 ▸ h
    · intro h
      by_cases he : d = 0
      · exact Or.inl he
      · exact Or.inr (h d rfl he)

lemma memoryPasses_iff (parsed : ParsedIntent) (m : Memory) :
    memoryPasses parsed m = true ↔ amendedSurvives parsed m := by
  simp only [memoryPasses, Bool.and_eq_true, Bool.not_eq_true',
    amendedSurvives, categoryBlocks_eq_false_iff, tagBlocks_eq_false_iff,
    startDateBlocks_eq_false_iff, endDateBlocks_eq_false_iff]
  tauto

/-- C1 (amended): a note is in the candidate list produced by the hard
filter iff it is among the input notes and: any non-null non-empty
requested category matches its category case-insensitively; when tags are
requested, at least one requested tag, lowercased, occurs verbatim among
the note tags; any non-null non-zero startDate satisfies
createdAt >= startDate and any non-null non-zero endDate satisfies
createdAt <= endDate.  Survivors keep their relative order (the candidate
list is a sublist of the input). -/
theorem hardFilter_characterization : ∀ parsed ms,
    (∀ m, m ∈ filterMemories parsed ms ↔ m ∈ ms ∧ amendedSurvives parsed m) ∧
    (filterMemories parsed ms).Sublist ms := by
  intro parsed ms
  refine ⟨fun m => ?_, List.filter_sublist _⟩
  rw [filterMemories, List.mem_filter, memoryPasses_iff]

/-- C1 (counterexample): under the claimed case-insensitive tag matching
the note with tag "React" survives an intent requesting tag "React", but
the implementation lowercases only the requested tag and then matches
verbatim, so the note is filtered out. -/
theorem hardFilter_claim_counterexample :
    claimSurvives intentReact noteReact = true ∧
    noteReact ∉ filterMemories intentReact [noteReact] := by
  refine ⟨by decide, fun hmem => ?_⟩
  rw [filterMemories, List.mem_filter] at hmem
  have h : memoryPasses intentReact noteReact = false := by decide
  rw [h] at hmem
  exact absurd hmem.2 (by decide)

/-- C5: on any failure of the annotation model call, analyzeContent
returns the degraded result: the first 50 characters of the input text
followed by the ellipsis marker "...", tags ["uncategorized"], category
"General", and no embedding — it never raises. -/
theorem analyzeContent_fallback : ∀ (text : String) (base64Image : Option String)
    (existingCategories : List String) (language : Language)
    (embedReply : Option (List ℝ)),
    analyzeContent text base64Image existingCategories language none embedReply =
      { summary := text.take 50 ++ "...", tags := ["uncategorized"],
        category := "General", embedding := none } := by
  intro _ _ _ _ _
  rfl

/-- C6: on any failure of the intent-parsing model call, parseSearchIntent
returns the fallback intent carrying the original query as keywords and no
filters — it never raises. -/
theorem parseSearchIntent_fallback : ∀ query : String,
    parseSearchIntent query none =
      { keywords := query, category := none, tags := [], startDate := none,
        endDate := none } := by
  intro _
  rfl

/-- C10: because the hard filter tests JavaScript truthiness, a startDate
of 0, an endDate of 0, and an empty-string category each disable the
corresponding filter exactly as null does. -/
theorem falsyFiltersDisabled : ∀ (parsed : ParsedIntent) (ms : List Memory),
    filterMemories { parsed with startDate := some 0 } ms
      = filterMemories { parsed with startDate := none } ms ∧
    filterMemories { parsed with endDate := some 0 } ms
      = filterMemories { parsed with endDate := none } ms ∧
    filterMemories { parsed with category := some "" } ms
      = filterMemories { parsed with category := none } ms := by
  intro parsed ms
  refine ⟨?_, ?_, ?_⟩ <;>
    (unfold filterMemories
     apply List.filter_congr
     intro m _
     simp [memoryPasses, categoryBlocks, startDateBlocks, endDateBlocks, tagBlocks])

lemma normSq_nil : normSq [] = 0 := rfl

lemma normSq_cons (x : ℝ) (t : List ℝ) : normSq (x :: t) = x * x + normSq t := by
  simp [normSq]

lemma normSq_nonneg (v : List ℝ) : 0 ≤ normSq v := by
  induction v with
  | nil => simp [normSq_nil]
  | cons x t ih => rw [normSq_cons]; nlinarith [mul_self_nonneg x]

lemma dotProduct_nil_left (b : List ℝ) : dotProduct [] b = 0 := rfl

lemma dotProduct_nil_right (a : List ℝ) : dotProduct a [] = 0 := by
  cases a <;> rfl

lemma dotProduct_cons (x y : ℝ) (xs ys : List ℝ) :
    dotProduct (x :: xs) (y :: ys) = x * y + dotProduct xs ys := by
  simp [dotProduct]

/-- Cauchy-Schwarz for the loop sums, in squared form. -/
lemma dotProduct_sq_le (a b : List ℝ) : dotProduct a b ^ 2 ≤ normSq a * normSq b := by
  induction a generalizing b with
  | nil =>
    simp [dotProduct_nil_left, normSq_nil]
  | cons x xs ih =>
    cases b with
    | nil =>
      simp [dotProduct_nil_right, normSq_nil]
    | cons y ys =>
      have h := ih ys
      have hna := normSq_nonneg xs
      have hnb := normSq_nonneg ys
      rw [dotProduct_cons, normSq_cons, normSq_cons]
      rcases eq_or_lt_of_le hna with hna0 | hnapos
      · have hd : dotProduct xs ys = 0 := by nlinarith [sq_nonneg (dotProduct xs ys)]
        rw [hd, ← hna0]
        nlinarith [mul_nonneg (mul_self_nonneg x) hnb]
      · have hsub : 0 ≤ normSq xs * normSq ys - dotProduct xs ys ^ 2 := by linarith
        have key : 0 ≤ (x * dotProduct xs ys - normSq xs * y) ^ 2 +
            (x ^ 2 + normSq xs) * (normSq xs * normSq ys - dotProduct xs ys ^ 2) :=
          add_nonneg (sq_nonneg _)
            (mul_nonneg (add_nonneg (sq_nonneg x) hna) hsub)
        nlinarith [key, hnapos]

lemma dotProduct_self (v : List ℝ) : dotProduct v v = normSq v := by
  induction v with
  | nil => rfl
  | cons x t ih => rw [dotProduct_cons, normSq_cons, ih]

lemma normSq_map_neg (v : List ℝ) : normSq (v.map fun x => -x) = normSq v := by
  induction v with
  | nil => rfl
  | cons x t ih => simp only [List.map_cons, normSq_cons, ih, neg_mul_neg]

lemma dotProduct_map_neg (v : List ℝ) :
    dotProduct v (v.map fun x => -x) = -(normSq v) := by
  induction v with
  | nil => simp [dotProduct_nil_left, normSq_nil]
  | cons x t ih =>
    simp only [List.map_cons, dotProduct_cons, normSq_cons, ih, mul_neg]
    ring

lemma normSq_eq_zero_of_allZero {v : List ℝ} (h : ∀ x ∈ v, x = 0) : normSq v = 0 := by
  induction v with
  | nil => rfl
  | cons x t ih =>
    rw [normSq_cons, h x (List.mem_cons_self x t), ih fun y hy => h y (List.mem_cons_of_mem x hy)]
    ring

lemma cosineSimilarity_some_some (a b : List ℝ) :
    cosineSimilarity (some a) (some b) =
      if a.length ≠ b.length then 0
      else if normSq a = 0 ∨ normSq b = 0 then 0
      else dotProduct a b / (Real.sqrt (normSq a) * Real.sqrt (normSq b)) := rfl

lemma cosineSimilarity_none_left (b : Option (List ℝ)) : cosineSimilarity none b = 0 := by
  cases b <;> rfl

lemma cosineSimilarity_none_right (a : Option (List ℝ)) : cosineSimilarity a none = 0 := by
  cases a <;> rfl

lemma abs_dotProduct_le (a b : List ℝ) :
    |dotProduct a b| ≤ Real.sqrt (normSq a) * Real.sqrt (normSq b) := by
  rw [← Real.sqrt_sq_eq_abs, ← Real.sqrt_mul (normSq_nonneg a)]
  exact Real.sqrt_le_sqrt (dotProduct_sq_le a b)

lemma cosineSimilarity_bounds (vecA vecB : Option (List ℝ)) :
    -1 ≤ cosineSimilarity vecA vecB ∧ cosineSimilarity vecA vecB ≤ 1 := by
  cases vecA with
  | none => rw [cosineSimilarity_none_left]; norm_num
  | some a =>
    cases vecB with
    | none => rw [cosineSimilarity_none_right]; norm_num
    | some b =>
      rw [cosineSimilarity_some_some]
      by_cases hlen : a.length ≠ b.length
      · rw [if_pos hlen]; norm_num
      · rw [if_neg hlen]
        by_cases hz : normSq a = 0 ∨ normSq b = 0
        · rw [if_pos hz]; norm_num
        · rw [if_neg hz]
          push_neg at hz
          have hpa : 0 < Real.sqrt (normSq a) :=
            Real.sqrt_pos.2 (lt_of_le_of_ne (normSq_nonneg a) (Ne.symm hz.1))
          have hpb : 0 < Real.sqrt (normSq b) :=
            Real.sqrt_pos.2 (lt_of_le_of_ne (normSq_nonneg b) (Ne.symm hz.2))
          have hD : 0 < Real.sqrt (normSq a) * Real.sqrt (normSq b) := mul_pos hpa hpb
          have habs : |dotProduct a b / (Real.sqrt (normSq a) * Real.sqrt (normSq b))| ≤ 1 := by
            rw [abs_div, abs_of_pos hD, div_le_one hD]
            exact abs_dotProduct_le a b
          exact abs_le.1 habs

/-- C7: for every pair of (possibly missing) vectors, cosineSimilarity
returns the defined value 0 when an argument is missing, the lengths
differ, or either magnitude is zero; otherwise it returns the dot product
divided by the product of the Euclidean norms; and the result always lies
in [-1, 1]. -/
theorem cosineSimilarity_characterization : ∀ vecA vecB : Option (List ℝ),
    (-1 ≤ cosineSimilarity vecA vecB ∧ cosineSimilarity vecA vecB ≤ 1) ∧
    ((vecA = none ∨ vecB = none) → cosineSimilarity vecA vecB = 0) ∧
    (∀ a b, vecA = some a → vecB = some b →
      (a.length ≠ b.length ∨ normSq a = 0 ∨ normSq b = 0) →
      cosineSimilarity vecA vecB = 0) ∧
    (∀ a b, vecA = some a → vecB = some b → a.length = b.length →
      normSq a ≠ 0 → normSq b ≠ 0 →
      cosineSimilarity vecA vecB =
        dotProduct a b / (Real.sqrt (normSq a) * Real.sqrt (normSq b))) := by
  intro vecA vecB
  refine ⟨cosineSimilarity_bounds vecA vecB, ?_, ?_, ?_⟩
  · rintro (rfl | rfl)
    · exact cosineSimilarity_none_left vecB
    · exact cosineSimilarity_none_right vecA
  · rintro a b rfl rfl hdeg
    rw [cosineSimilarity_some_some]
    rcases hdeg with h | h
    · rw [if_pos h]
    · by_cases hlen : a.length = b.length
      · rw [if_neg (fun hc => hc hlen), if_pos h]
      · rw [if_pos hlen]
  · rintro a b rfl rfl hlen hna hnb
    rw [cosineSimilarity_some_some, if_neg (fun h => h hlen),
      if_neg (by simp [hna, hnb])]

/-- C7 (witness): at the concrete non-degenerate input [1], [1] the
similarity is the quotient of the dot product by the product of norms,
and at the degenerate input [1], [0] (zero magnitude) it is 0, within
[-1, 1]. -/
theorem cosineSimilarity_characterization_witness :
    cosineSimilarity (some [(1 : ℝ)]) (some [(1 : ℝ)]) =
      dotProduct [(1 : ℝ)] [(1 : ℝ)] /
        (Real.sqrt (normSq [(1 : ℝ)]) * Real.sqrt (normSq [(1 : ℝ)])) ∧
    -1 ≤ cosineSimilarity (some [(1 : ℝ)]) (some [(0 : ℝ)]) ∧
    cosineSimilarity (some [(1 : ℝ)]) (some [(0 : ℝ)]) = 0 := by
  have h1 := cosineSimilarity_characterization (some [(1 : ℝ)]) (some [(1 : ℝ)])
  have h2 := cosineSimilarity_characterization (some [(1 : ℝ)]) (some [(0 : ℝ)])
  refine ⟨h1.2.2.2 _ _ rfl rfl rfl ?_ ?_, h2.1.1, h2.2.2.1 _ _ rfl rfl ?_⟩
  · norm_num [normSq]
  · norm_num [normSq]
  · right; right; norm_num [normSq]

/-- C8: cosineSimilarity of a nonzero vector with itself is exactly 1 in
exact real arithmetic, with its negation exactly -1, and it is 0 whenever
either vector is all-zero or the lengths differ. -/
theorem cosineSimilarity_identities : ∀ v w : List ℝ,
    (normSq v ≠ 0 →
      cosineSimilarity (some v) (some v) = 1 ∧
      cosineSimilarity (some v) (some (v.map fun x => -x)) = -1) ∧
    (((∀ x ∈ v, x = 0) ∨ (∀ x ∈ w, x = 0) ∨ v.length ≠ w.length) →
      cosineSimilarity (some v) (some w) = 0) := by
  intro v w
  constructor
  · intro hv
    constructor
    · rw [cosineSimilarity_some_some, if_neg (by simp), if_neg (by simp [hv]),
        dotProduct_self, Real.mul_self_sqrt (normSq_nonneg v), div_self hv]
    · rw [cosineSimilarity_some_some, if_neg (by simp), if_neg (by simp [normSq_map_neg, hv]),
        dotProduct_map_neg, normSq_map_neg, Real.mul_self_sqrt (normSq_nonneg v),
        neg_div, div_self hv]
  · intro hdeg
    rw [cosineSimilarity_some_some]
    rcases hdeg with h | h | h
    · by_cases hlen : v.length = w.length
      · rw [if_neg (fun hc => hc hlen), if_pos (Or.inl (normSq_eq_zero_of_allZero h))]
      · rw [if_pos hlen]
    · by_cases hlen : v.length = w.length
      · rw [if_neg (fun hc => hc hlen), if_pos (Or.inr (normSq_eq_zero_of_allZero h))]
      · rw [if_pos hlen]
    · rw [if_pos h]

/-- C8 (witness): at the concrete nonzero vector [1]: similarity with
itself is 1, with its negation [-1] it is -1, and with the all-zero
vector [0] it is 0. -/
theorem cosineSimilarity_identities_witness :
    cosineSimilarity (some [(1 : ℝ)]) (some [(1 : ℝ)]) = 1 ∧
    cosineSimilarity (some [(1 : ℝ)]) (some [(-1 : ℝ)]) = -1 ∧
    cosineSimilarity (some [(1 : ℝ)]) (some [(0 : ℝ)]) = 0 := by
  have h := cosineSimilarity_identities [(1 : ℝ)] [(0 : ℝ)]
  have hv : normSq [(1 : ℝ)] ≠ 0 := by norm_num [normSq]
  have hneg : ([(1 : ℝ)].map fun x => -x) = [(-1 : ℝ)] := by norm_num
  refine ⟨(h.1 hv).1, ?_, h.2 (Or.inr (Or.inl ?_))⟩
  · have := (h.1 hv).2
    rwa [hneg] at this
  · intro x hx
    simp only [List.mem_singleton] at hx
    exact hx

/-- A fixture note with no stored embedding. -/
def noteA : Memory :=
  { id := "a", originalContent := "alpha", type := ContentType.TEXT,
    imageData := none, summary := "alpha", tags := ["alpha"],
    category := "General", createdAt := 1, embedding := none }

/-- A fixture note whose stored embedding is exactly opposite to the
query embedding [1], so its similarity score is exactly -1. -/
def noteB : Memory :=
  { id := "b", originalContent := "beta", type := ContentType.TEXT,
    imageData := none, summary := "beta", tags := ["beta"],
    category := "General", createdAt := 2, embedding := some [(-1 : ℝ)] }

/-- A fixture intent whose keywords are long enough for the embedding
branch. -/
def intentKeyword : ParsedIntent :=
  { keywords := "ab", category := none, tags := [], startDate := none,
    endDate := none }

/-- A fixture intent whose keywords are too short for the embedding
branch. -/
def intentShort : ParsedIntent :=
  { keywords := "a", category := none, tags := [], startDate := none,
    endDate := none }

lemma keywordCond_true {p : ParsedIntent} (hk : 1 < p.keywords.length) :
    (!(p.keywords == "") && decide (1 < p.keywords.length)) = true := by
  have hne : p.keywords ≠ "" := by
    intro h
    rw [h] at hk
    exact absurd hk (by decide)
  simp [hne, hk]

lemma keywordCond_false {p : ParsedIntent} (hk : p.keywords.length ≤ 1) :
    (!(p.keywords == "") && decide (1 < p.keywords.length)) = false := by
  simp [Nat.not_lt.2 hk]

lemma rankMemories_short {p : ParsedIntent} (hk : p.keywords.length ≤ 1)
    (e : Option (List ℝ)) (f : List Memory) :
    rankMemories p e f = (f.insertionSort createdGe).take 10 := by
  unfold rankMemories
  rw [keywordCond_false hk]
  simp

lemma rankMemories_keyword_some {p : ParsedIntent} (hk : 1 < p.keywords.length)
    (q : List ℝ) (f : List Memory) (hf : f ≠ []) :
    rankMemories p (some q) f =
      (((f.map (scoreOf q)).insertionSort scoreGe).take 10).map ScoredMemory.memory := by
  unfold rankMemories
  rw [keywordCond_true hk]
  simp [List.length_pos.2 hf]

lemma rankMemories_keyword_fail {p : ParsedIntent} (hk : 1 < p.keywords.length)
    (f : List Memory) :
    rankMemories p none f = f.take 10 := by
  unfold rankMemories
  rw [keywordCond_true hk]
  simp

lemma rankMemories_nil (p : ParsedIntent) (e : Option (List ℝ)) :
    rankMemories p e [] = [] := by
  unfold rankMemories
  cases e <;> split <;> simp

/-- C2 (amended): with keywords longer than one character, when the
keyword embedding succeeds and the candidate list is non-empty, queryBrain
scores every candidate (score -1 for a candidate lacking an embedding,
cosine similarity otherwise, and every similarity lies in [-1, 1], so
unscored candidates tie at worst), stably sorts descending by score, and
returns at most the top 10; if the embedding fails or the candidate list
is empty, it returns the first 10 candidates in their existing order.
Unscored candidates need not come after every scored one: a scored
candidate whose similarity is exactly -1 ties with them and stays in
input order. -/
theorem rankingByKeyword (parsed : ParsedIntent) (f : List Memory)
    (hk : 1 < parsed.keywords.length) :
    (∀ e, (rankMemories parsed e f).length ≤ 10) ∧
    (∀ q, f ≠ [] → ∃ l : List ScoredMemory, l.Perm (f.map (scoreOf q)) ∧ l.Sorted scoreGe ∧
      rankMemories parsed (some q) f = (l.take 10).map ScoredMemory.memory) ∧
    (∀ q m, m.embedding = none → (scoreOf q m).score = -1) ∧
    (∀ q sm, sm ∈ f.map (scoreOf q) → -1 ≤ sm.score ∧ sm.score ≤ 1) ∧
    (rankMemories parsed none f = f.take 10) ∧
    (∀ q, f = [] → rankMemories parsed (some q) f = f.take 10) := by
  refine ⟨?_, ?_, ?_, ?_, rankMemories_keyword_fail hk f, ?_⟩
  · intro e
    cases e with
    | none =>
      rw [rankMemories_keyword_fail hk]
      simp [List.length_take]
    | some q =>
      by_cases hf : f = []
      · subst hf
        rw [rankMemories_nil]
        simp
      · rw [rankMemories_keyword_some hk q f hf]
        simp [List.length_take]
  · intro q hf
    exact ⟨(f.map (scoreOf q)).insertionSort scoreGe,
      List.perm_insertionSort scoreGe _,
      List.sorted_insertionSort scoreGe _,
      rankMemories_keyword_some hk q f hf⟩
  · intro q m hm
    simp [scoreOf, hm]
  · intro q sm hsm
    rw [List.mem_map] at hsm
    obtain ⟨m, _, rfl⟩ := hsm
    cases he : m.embedding with
    | none =>
      simp only [scoreOf, he]
      norm_num
    | some emb =>
      simp only [scoreOf, he]
      exact cosineSimilarity_bounds (some q) (some emb)
  · intro q hf
    subst hf
    rw [rankMemories_nil]
    rfl

/-- C2 (witness): at a concrete two-note collection with keywords "ab",
the embedding-failure branch returns the first candidates in order, and
the scoring branch produces a sorted permutation of the scored
candidates. -/
theorem rankingByKeyword_witness :
    rankMemories intentKeyword none [noteA, noteB] = [noteA, noteB].take 10 ∧
    ∃ l : List ScoredMemory, l.Perm ([noteA, noteB].map (scoreOf [(1 : ℝ)])) ∧ l.Sorted scoreGe ∧
      rankMemories intentKeyword (some [(1 : ℝ)]) [noteA, noteB] =
        (l.take 10).map ScoredMemory.memory := by
  have h := rankingByKeyword intentKeyword [noteA, noteB] (by decide)
  exact ⟨h.2.2.2.2.1, h.2.1 [(1 : ℝ)] (by simp)⟩

/-- C2 (counterexample): the claimed property that unscored candidates
come last fails: noteA has no embedding (score -1) and noteB's similarity
to the query embedding [1] is exactly -1, so the stable sort keeps the
unscored noteA first, ahead of the scored noteB. -/
theorem rankingByKeyword_counterexample :
    noteA.embedding = none ∧
    noteB.embedding = some [(-1 : ℝ)] ∧
    rankMemories intentKeyword (some [(1 : ℝ)]) [noteA, noteB] = [noteA, noteB] ∧
    unscoredLast (rankMemories intentKeyword (some [(1 : ℝ)]) [noteA, noteB]) = false := by
  have hcos : cosineSimilarity (some [(1 : ℝ)]) (some [(-1 : ℝ)]) = -1 := by
    rw [cosineSimilarity_some_some, if_neg (by simp), if_neg (by norm_num [normSq])]
    norm_num [dotProduct, normSq, Real.sqrt_one]
  have hmap : [noteA, noteB].map (scoreOf [(1 : ℝ)]) =
      [⟨noteA, -1⟩, ⟨noteB, -1⟩] := by
    simp [scoreOf, noteA, noteB, hcos]
  have hsort : ([(⟨noteA, -1⟩ : ScoredMemory), ⟨noteB, -1⟩].insertionSort scoreGe) =
      [⟨noteA, -1⟩, ⟨noteB, -1⟩] := by
    simp [List.insertionSort, List.orderedInsert, scoreGe]
  have hrank : rankMemories intentKeyword (some [(1 : ℝ)]) [noteA, noteB] =
      [noteA, noteB] := by
    rw [rankMemories_keyword_some (by decide) _ _ (by simp), hmap, hsort]
    simp
  refine ⟨rfl, rfl, hrank, ?_⟩
  rw [hrank]
  simp [unscoredLast, noteA, noteB]

/-- C3: with keywords of length at most 1 (including empty), the ranking
ignores the embedding call entirely and returns at most the 10 most
recent candidates, sorted by createdAt descending (a prefix of a sorted
permutation of the candidate list). -/
theorem rankingByRecency (parsed : ParsedIntent) (e : Option (List ℝ))
    (f : List Memory) (hk : parsed.keywords.length ≤ 1) :
    (∀ e2, rankMemories parsed e2 f = rankMemories parsed e f) ∧
    (rankMemories parsed e f).length ≤ 10 ∧
    (rankMemories parsed e f).Sorted createdGe ∧
    ∃ l : List Memory, l.Perm f ∧ l.Sorted createdGe ∧ rankMemories parsed e f = l.take 10 := by
  have hr : ∀ e2, rankMemories parsed e2 f = (f.insertionSort createdGe).take 10 :=
    fun e2 => rankMemories_short hk e2 f
  refine ⟨fun e2 => (hr e2).trans (hr e).symm, ?_, ?_, ?_⟩
  · rw [hr]
    simp [List.length_take]
  · rw [hr]
    exact List.Pairwise.sublist (List.take_sublist _ _)
      (List.sorted_insertionSort createdGe f)
  · exact ⟨f.insertionSort createdGe, List.perm_insertionSort createdGe f,
      List.sorted_insertionSort createdGe f, hr e⟩

/-- C3 (witness): at a concrete two-note collection with the one-letter
keyword "a", the result does not depend on the embedding outcome and is
sorted by createdAt descending. -/
theorem rankingByRecency_witness :
    rankMemories intentShort none [noteA, noteB] =
      rankMemories intentShort (some [(1 : ℝ)]) [noteA, noteB] ∧
    (rankMemories intentShort (some [(1 : ℝ)]) [noteA, noteB]).Sorted createdGe := by
  have h := rankingByRecency intentShort (some [(1 : ℝ)]) [noteA, noteB] (by decide)
  exact ⟨h.1 none, h.2.2.1⟩

/-- C4: whenever the ranked result is empty, queryBrain returns the
canned no-matches answer in the requested language with relatedIds = []
and usedFilters equal to the parsed intent, independently of the
answer-synthesis outcome (no synthesis call is consulted); and an empty
candidate list always ranks to the empty list. -/
theorem emptyResultShortCircuit (userQuery : String) (memories : List Memory)
    (language : Language) (parseReply : Option ParsedIntent)
    (embedReply : Option (List ℝ))
    (hempty : rankMemories (parseSearchIntent userQuery parseReply) embedReply
      (filterMemories (parseSearchIntent userQuery parseReply) memories) = []) :
    (∀ synthReply, queryBrain userQuery memories language parseReply embedReply synthReply =
      { answer := noMatchesAnswer language, relatedIds := [],
        usedFilters := some (parseSearchIntent userQuery parseReply) }) ∧
    (∀ (p : ParsedIntent) (e : Option (List ℝ)), rankMemories p e [] = []) := by
  refine ⟨fun synthReply => ?_, fun p e => rankMemories_nil p e⟩
  simp only [queryBrain]
  rw [hempty]
  simp

/-- C4 (witness): at the concrete empty collection, queryBrain ignores a
successful synthesis reply and returns the canned English no-matches
response with no related ids. -/
theorem emptyResultShortCircuit_witness :
    queryBrain "x" [] Language.en none none (some ("a", ["b"])) =
      { answer := noMatchesAnswer Language.en, relatedIds := [],
        usedFilters := some (parseSearchIntent "x" none) } := by
  have hempty : rankMemories (parseSearchIntent "x" none) none
      (filterMemories (parseSearchIntent "x" none) []) = [] := by
    rw [show filterMemories (parseSearchIntent "x" none) [] = [] from rfl]
    exact rankMemories_nil _ _
  exact (emptyResultShortCircuit "x" [] Language.en none none hempty).1
    (some ("a", ["b"]))

/-- C9: queryBrain never mutates the input memories array: in the
heap-level rendering, the final heap still holds the original note list
at memoriesRef (only the freshly filtered copy is ever sorted in place),
and the computed ranking agrees with the pure model. -/
theorem noteCollectionReadOnly (parsed : ParsedIntent) (e : Option (List ℝ))
    (h0 : Heap) (memoriesRef : Nat) (hvalid : memoriesRef < h0.next) :
    readRef (queryBrainHeap parsed e h0 memoriesRef).1 memoriesRef
        = readRef h0 memoriesRef ∧
    (queryBrainHeap parsed e h0 memoriesRef).2 =
      rankMemories parsed e (filterMemories parsed (readRef h0 memoriesRef)) := by
  have hne : memoriesRef ≠ h0.next := Nat.ne_of_lt hvalid
  constructor
  · unfold queryBrainHeap
    split
    · cases e with
      | none => simp [readRef, allocRef, hne]
      | some q => dsimp only; split <;> simp [readRef, allocRef, hne]
    · simp [readRef, allocRef, writeRef, hne]
  · unfold queryBrainHeap rankMemories
    split
    · cases e with
      | none => simp [readRef, allocRef]
      | some q => dsimp only; split <;> simp_all [readRef, allocRef]
    · simp [readRef, allocRef, writeRef]

/-- A one-array heap holding noteA at ref 0. -/
def heapOne : Heap :=
  { arrays := fun i => if i = 0 then [noteA] else [], next := 1 }

/-- C9 (witness): at a concrete one-array heap, the memories array is
unchanged by the query. -/
theorem noteCollectionReadOnly_witness :
    readRef (queryBrainHeap intentShort none heapOne 0).1 0 = readRef heapOne 0 :=
  (noteCollectionReadOnly intentShort none heapOne 0 (by decide)).1

end SecondBrain
